import Mathlib

/-!
Shallow embedding of the FlowDay editor core: the node-tree data model and its
mutation algebra (App.tsx handlers), the canvas viewport transform and resize
math (FlowCanvas.tsx), the drop coordinator, and the startup load reconciliation.
JavaScript numbers are idealised as rationals; `undefined`/`null` string fields
are `Option String` (JS `||` falsiness on strings treats `""` like absence, and
on numbers treats `0` like absence; this is modelled explicitly below).
-/

/-- The five node kinds of `types.ts` (`NodeType`). -/
inductive NodeType
  | time | task | place | branch | block
deriving DecidableEq, Repr

/-- The three leaf kinds permitted in `SingleNode` (`types.ts`). -/
inductive SingleType
  | time | task | place
deriving DecidableEq, Repr

/-- The shared base attributes of `BaseNode` in `types.ts`. -/
structure BaseAttrs where
  id : String
  title : String
  subtitle : Option String := none
  duration : Option String := none
  icon : Option String := none
  color : Option String := none
  isDashedConnection : Option Bool := none
deriving DecidableEq, Repr

/-- A runtime flow node. In the source, `branches`/`sideEvents` are annotated
`SingleNode[]`, but TypeScript annotations are erased at runtime and
`handleUpdateNode` casts an arbitrary `FlowNode` into a child slot, so the
child lists here hold arbitrary `FlowNode`s, matching the runtime values.
`block` carries `customWidth`/`customHeight` as optional numbers. -/
inductive FlowNode
  | single : BaseAttrs → SingleType → FlowNode
  | branch : BaseAttrs → List FlowNode → FlowNode
  | block : BaseAttrs → List FlowNode → Option ℚ → Option ℚ → FlowNode

/-- The `id` attribute of a node. -/
def FlowNode.id : FlowNode → String
  | .single b _ => b.id
  | .branch b _ => b.id
  | .block b _ _ _ => b.id

/-- Number of one-level nested children (branch children or block side-events). -/
def FlowNode.childCount : FlowNode → Nat
  | .single _ _ => 0
  | .branch _ cs => cs.length
  | .block _ es _ _ => es.length

/-- The node's own id followed by the ids of its one-level nested children. -/
def FlowNode.ownAndChildIds : FlowNode → List String
  | .single b _ => [b.id]
  | .branch b cs => b.id :: cs.map FlowNode.id
  | .block b es _ _ => b.id :: es.map FlowNode.id

/-- All identifiers of a sequence: every top-level id together with all
one-level nested branch-children and block side-event ids. -/
def allIds : List FlowNode → List String
  | [] => []
  | n :: rest => n.ownAndChildIds ++ allIds rest

/-- Identifier uniqueness across the top level and all nested children combined. -/
def UniqueIds (l : List FlowNode) : Prop := (allIds l).Nodup

/-- Total number of nodes counted across the top level and all one-level
nested children (each node contributes one entry to `allIds`). -/
def totalCount (l : List FlowNode) : Nat := (allIds l).length

/-! ### Tree mutator: delete (`handleDeleteNode` in App.tsx) -/

/-- The per-node child cleanup of `deleteRecursive`: a branch drops matching
branch children, a block drops matching side events, other nodes pass through. -/
def deleteChildren (i : String) : FlowNode → FlowNode
  | .branch b cs => .branch b (cs.filter (fun c => c.id ≠ i))
  | .block b es w h => .block b (es.filter (fun c => c.id ≠ i)) w h
  | n => n

/-- `deleteRecursive` from `handleDeleteNode`: drop the matching top-level node,
then drop matching children from every remaining branch/block. -/
def deleteRecursive (i : String) (l : List FlowNode) : List FlowNode :=
  (l.filter (fun n => n.id ≠ i)).map (deleteChildren i)

/-! ### Tree mutator: update (`handleUpdateNode` in App.tsx) -/

/-- Whether a branch/block has a one-level child whose id matches `u.id`
(the `childMatch` checks in `updateRecursive`). -/
def childMatch (u n : FlowNode) : Bool :=
  match n with
  | .branch _ cs => cs.any (fun c => c.id == u.id)
  | .block _ es _ _ => es.any (fun c => c.id == u.id)
  | .single _ _ => false

/-- The body of `updateRecursive`'s `map`: replace the node itself on an id
match, otherwise replace a matching one-level child inside a branch/block. -/
def updateOne (u : FlowNode) (n : FlowNode) : FlowNode :=
  if n.id = u.id then u
  else
    match n with
    | .branch b cs =>
        if cs.any (fun c => c.id == u.id) then
          .branch b (cs.map (fun c => if c.id = u.id then u else c))
        else n
    | .block b es w h =>
        if es.any (fun c => c.id == u.id) then
          .block b (es.map (fun c => if c.id = u.id then u else c)) w h
        else n
    | _ => n

/-- `updateRecursive` from `handleUpdateNode`. -/
def updateRecursive (u : FlowNode) (l : List FlowNode) : List FlowNode :=
  l.map (updateOne u)

/-! ### Tree mutator: insert (`createNode`, `handleAddNode`, `handleDropNode`) -/

/-- `createNode` from App.tsx; `newId` stands for the `Date.now().toString()`
value read at the call. Branch nodes are seeded with two task children whose
ids derive from `newId`. -/
def createNode (t : NodeType) (newId : String) : FlowNode :=
  match t with
  | .block =>
      .block { id := newId, title := "新时间段", subtitle := some ("专注任务..."),
               duration := some ("60 mins"), icon := some ("Hourglass"),
               color := some ("violet") } [] none none
  | .branch =>
      .branch { id := newId, title := "并行组", subtitle := some ("") }
        [ .single { id := newId ++ "_1", title := "任务 A", subtitle := some (""),
                    duration := some ("15 mins"), icon := some ("Square"),
                    color := some ("white") } .task,
          .single { id := newId ++ "_2", title := "任务 B", subtitle := some (""),
                    duration := some ("15 mins"), icon := some ("Square"),
                    color := some ("white") } .task ]
  | .time =>
      .single { id := newId, title := "00:00", subtitle := some (""),
                color := some ("rose") } .time
  | .place =>
      .single { id := newId, title := "新节点", subtitle := some (""),
                color := some ("yellow") } .place
  | .task =>
      .single { id := newId, title := "新节点", subtitle := some (""),
                icon := some ("Square"), color := some ("white") } .task

/-- The identifiers a fresh `createNode t newId` call introduces into the tree. -/
def genIds (t : NodeType) (newId : String) : List String :=
  match t with
  | .branch => [newId, newId ++ "_1", newId ++ "_2"]
  | _ => [newId]

/-- JS `array.splice(i, 0, x)`: insert `x` before index `i` (clamped to the
length, as in JS). -/
def spliceIn (l : List FlowNode) (i : Nat) (x : FlowNode) : List FlowNode :=
  l.take i ++ x :: l.drop i

/-- Index of the first node with the given id (JS `findIndex` on `n.id`). -/
def findIdxById : List FlowNode → String → Option Nat
  | [], _ => none
  | n :: rest, t => if n.id = t then some 0 else (findIdxById rest t).map (· + 1)

/-- `handleAddNode` from App.tsx: insert a freshly created node right after the
selected node when one is found, else append. The guard `if (selectedNodeId)`
treats the empty string as falsy, so a `some ""` selection appends. -/
def handleAddNode (l : List FlowNode) (sel : Option String) (t : NodeType)
    (newId : String) : List FlowNode :=
  let newNode := createNode t newId
  match sel with
  | some s =>
      if s = "" then l ++ [newNode]
      else
        match findIdxById l s with
        | some i => spliceIn l (i + 1) newNode
        | none => l ++ [newNode]
  | none => l ++ [newNode]

/-- Drop positions of the drag protocol. -/
inductive DropPos
  | before | after | append
deriving DecidableEq, Repr

/-- The drag payload written at drag start: `{ source, id?, type }`. Sidebar
payloads carry no id (`id = none` models JS `undefined`). -/
structure DragData where
  source : String
  id : Option String := none
  type : NodeType
deriving DecidableEq, Repr

/-- JS strict equality between the payload's possibly-`undefined` id and the
possibly-`null` target id: two distinct JS bottom values are never `===`. -/
def jsStrictEq : Option String → Option String → Bool
  | some a, some b => a == b
  | _, _ => false

/-- The second half of `handleDropNode`: splice `n` immediately before/after
the anchor's top-level index, or push to the end on `append`, a missing
target, or an unknown anchor. The source guard is
`position === 'append' || !targetId`, and `!""` is true in JS, so an
empty-string target id counts as missing and appends (even when a node with
id `""` is present), exactly like `null`. -/
def insertIntoList (l : List FlowNode) (n : FlowNode) (targetId : Option String)
    (pos : DropPos) : List FlowNode :=
  match pos, targetId with
  | .append, _ => l ++ [n]
  | _, none => l ++ [n]
  | .before, some t =>
      if t = "" then l ++ [n]
      else
        match findIdxById l t with
        | none => l ++ [n]
        | some ti => spliceIn l ti n
  | .after, some t =>
      if t = "" then l ++ [n]
      else
        match findIdxById l t with
        | none => l ++ [n]
        | some ti => spliceIn l (ti + 1) n

/-- JS `findIndex` + `splice(index, 1)`: remove and return the first node
satisfying `p`, together with the remaining list. -/
def extractFirst (p : FlowNode → Bool) : List FlowNode → Option (FlowNode × List FlowNode)
  | [] => none
  | n :: rest =>
      if p n then some (n, rest)
      else (extractFirst p rest).map (fun m => (m.1, n :: m.2))

/-- `handleDropNode` from App.tsx. A payload whose id strictly equals the
target is a guarded no-op; a sidebar payload inserts a fresh node; a canvas
payload moves: the node is first removed from its old top-level index, then
spliced; any other source is ignored. -/
def handleDropNode (l : List FlowNode) (d : DragData) (targetId : Option String)
    (pos : DropPos) (newId : String) : List FlowNode :=
  if jsStrictEq d.id targetId then l
  else if d.source = "sidebar" then
    insertIntoList l (createNode d.type newId) targetId pos
  else if d.source = "canvas" then
    match d.id with
    | none => l
    | some mid =>
        match extractFirst (fun n => n.id == mid) l with
        | none => l
        | some m => insertIntoList m.2 m.1 targetId pos
  else l

/-! ### Geometry engine (FlowCanvas.tsx) -/

/-- The canvas viewport transform state. -/
structure Viewport where
  zoom : ℚ
  panX : ℚ
  panY : ℚ
deriving DecidableEq, Repr

/-- `scaleAmount = -e.deltaY * 0.001` in `handleWheel`. -/
def scaleAmountOf (dy : ℚ) : ℚ := -dy * (1 / 1000)

/-- The new zoom of the modifier-wheel path:
`Math.min(Math.max(zoom + scaleAmount, 0.2), 3)`. -/
def wheelNewZoom (z dy : ℚ) : ℚ := min (max (z + scaleAmountOf dy) (1 / 5)) 3

/-- The zoom branch of `handleWheel`: convert the pointer's container-relative
screen point to world coordinates under the current transform, clamp the new
zoom, and solve the pan that keeps that world point under the pointer
(`newPan = mouse - world * newZoom`). -/
def wheelZoom (v : Viewport) (mouseX mouseY dy : ℚ) : Viewport :=
  let worldX := (mouseX - v.panX) / v.zoom
  let worldY := (mouseY - v.panY) / v.zoom
  let newZoom := wheelNewZoom v.zoom dy
  { zoom := newZoom, panX := mouseX - worldX * newZoom, panY := mouseY - worldY * newZoom }

/-- `handleZoomIn`: `Math.min(prev + 0.1, 2)`. -/
def handleZoomIn (z : ℚ) : ℚ := min (z + 1 / 10) 2

/-- `handleZoomOut`: `Math.max(prev - 0.1, 0.2)`. -/
def handleZoomOut (z : ℚ) : ℚ := max (z - 1 / 10) (1 / 5)

/-! ### Block resize (BlockRenderer.handleResizeStart in FlowCanvas.tsx) -/

/-- JS `x || d` on an optional number: `undefined` and `0` are falsy. -/
def jsNumOr (o : Option ℚ) (d : ℚ) : ℚ :=
  match o with
  | some x => if x = 0 then d else x
  | none => d

/-- The dimensions written by one `mousemove` of the resize gesture:
`dx = (clientX - startX) / zoom`, `newWidth = Math.max(100, startWidth + dx)`,
with `startWidth = node.customWidth || 128` (and likewise for the height). -/
def handleResizeMove (cw ch : Option ℚ) (startX startY clientX clientY zoom : ℚ) : ℚ × ℚ :=
  let startWidth := jsNumOr cw 128
  let startHeight := jsNumOr ch 128
  let dx := (clientX - startX) / zoom
  let dy := (clientY - startY) / zoom
  (max 100 (startWidth + dx), max 100 (startHeight + dy))

/-- The node emitted to `onUpdateNode` by the resize handler: the block with
`customWidth`/`customHeight` overwritten by the computed dimensions. -/
def resizeUpdatedNode (b : BaseAttrs) (es : List FlowNode) (cw ch : Option ℚ)
    (startX startY clientX clientY zoom : ℚ) : FlowNode :=
  let dims := handleResizeMove cw ch startX startY clientX clientY zoom
  .block b es (some dims.1) (some dims.2)

/-! ### Drag/drop coordinator (FlowCanvas.tsx handleDrop and drag-over handlers) -/

/-- Transient drag state of the coordinator. -/
structure DragState where
  isDragging : Bool
  dragOverId : Option String
  dropPosition : Option DropPos
  isOverTrash : Bool
deriving DecidableEq, Repr

/-- The idle values every drop resets to. -/
def idleDragState : DragState :=
  { isDragging := false, dragOverId := none, dropPosition := none, isOverTrash := false }

/-- The mutation a drop delegates to the tree mutator (or none). -/
inductive DropAction
  | noAction
  | deleteNode (i : Option String)
  | dropNode (d : DragData) (target : Option String) (pos : DropPos)
deriving DecidableEq, Repr

/-- The mutation selected by `handleDrop`'s branch structure, reading the
pre-drop state snapshot: over the trash a canvas payload deletes; otherwise a
resolved hover target receives the payload unless the self-drop guard fires;
with no resolved target only a sidebar payload appends. The source guard is
`if (dragOverId && dropPosition)` and `""` is falsy in JS, so an empty-string
hover target id counts as unresolved and takes the no-target branch. -/
def dropActionOf (s : DragState) (d : DragData) : DropAction :=
  if s.isOverTrash then
    if d.source = "canvas" then .deleteNode d.id else .noAction
  else
    match s.dragOverId, s.dropPosition with
    | some t, some p =>
        if t = "" then
          (if d.source = "sidebar" then .dropNode d none .append else .noAction)
        else if jsStrictEq d.id (some t) then .noAction
        else .dropNode d (some t) p
    | _, _ =>
        if d.source = "sidebar" then .dropNode d none .append else .noAction

/-- `handleDrop` of FlowCanvas.tsx as a pure step: from the pre-drop state and
the (possibly missing/unparseable) payload, the post-drop state and the
delegated mutation. The transient state is reset to idle before any branch
returns (the source runs all four setters first), and the branch conditions
read the pre-drop snapshot. -/
def handleDrop (s : DragState) (payload : Option DragData) : DragState × DropAction :=
  (idleDragState,
    match payload with
    | none => .noAction
    | some d => dropActionOf s d)

/-- Drop-position resolution of the vertical layout's `handleNodeDragOver`:
`before` when the pointer's y is strictly above the hovered zone's midpoint,
else `after`. -/
def verticalDropPosition (clientY rectTop rectHeight : ℚ) : DropPos :=
  if clientY < rectTop + rectHeight / 2 then .before else .after

/-- Drop-position resolution of the map layout's `handleNodeDragOver`: the
source sets `'after'` unconditionally, ignoring the pointer coordinates
(the arguments are kept for comparability with the vertical handler). -/
def mapDropPosition (_clientY _rectTop _rectHeight : ℚ) : DropPos := .after

/-! ### Persistence load (the load-on-mount effect in App.tsx) -/

/-- A named layout holding one top-level node sequence. -/
structure Layout where
  id : String
  name : String
  nodes : List FlowNode

/-- The persisted root record. `activeLayoutId = none` models an absent field;
JS `||` also treats the empty string as absent. -/
structure AppData where
  layouts : List Layout
  activeLayoutId : Option String

/-- JS `o || d` on an optional string: `undefined`/`""` fall back to `d`. -/
def jsStrOr (o : Option String) (d : String) : String :=
  match o with
  | some s => if s = "" then d else s
  | none => d

/-- The layouts-present branch of the load effect: resolve the active id with
`savedData.activeLayoutId || savedData.layouts[0].id`, then load the nodes of
`find(l => l.id === activeId) || savedData.layouts[0]`. Returns `none` when
the persisted layout list is empty (the defaults are kept in that case). -/
def loadResolve : AppData → Option (String × List FlowNode)
  | ⟨[], _⟩ => none
  | ⟨l0 :: rest, act⟩ =>
      let activeId := jsStrOr act l0.id
      let activeLayout := ((l0 :: rest).find? (fun l => l.id = activeId)).getD l0
      some (activeId, activeLayout.nodes)

/-! ### Composed editing operations (for the uniqueness invariant) -/

/-- One invocation of a sequence-mutating handler. The `newId` arguments stand
for the `Date.now()`-derived strings read during the call. -/
inductive EditOp
  | add (t : NodeType) (sel : Option String) (newId : String)
  | drop (d : DragData) (target : Option String) (pos : DropPos) (newId : String)
  | update (u : FlowNode)
  | delete (i : String)

/-- Apply one editing operation to the working sequence. -/
def applyOp (l : List FlowNode) : EditOp → List FlowNode
  | .add t sel newId => handleAddNode l sel t newId
  | .drop d tgt pos newId => handleDropNode l d tgt pos newId
  | .update u => updateRecursive u l
  | .delete i => deleteRecursive i l

/-- Apply a finite composition of editing operations, left to right. -/
def applyOps (l : List FlowNode) : List EditOp → List FlowNode
  | [] => l
  | op :: rest => applyOps (applyOp l op) rest

/-- Side condition on an update payload `u` against the current sequence: if
`u.id` matches a top-level node `n` (so the whole node is replaced), then the
identifiers of `u` are pairwise distinct and every one of them that already
occurs in the tree occurs inside the replaced node `n`. (When `u.id` matches
only a nested child, the child slot keeps its id and no condition is needed.) -/
def UpdateOk (l : List FlowNode) (u : FlowNode) : Prop :=
  ∀ n ∈ l, n.id = u.id →
    (FlowNode.ownAndChildIds u).Nodup ∧
      ∀ i ∈ FlowNode.ownAndChildIds u, i ∈ allIds l → i ∈ n.ownAndChildIds

/-- Side condition on one operation against the current sequence: freshly
generated identifiers (modelling the monotone `Date.now()` source) do not
collide with the tree or each other, and update payloads satisfy `UpdateOk`. -/
def OpFresh (l : List FlowNode) : EditOp → Prop
  | .add t _ newId => (genIds t newId).Nodup ∧ ∀ i ∈ genIds t newId, i ∉ allIds l
  | .drop d _ _ newId =>
      d.source = "sidebar" →
        (genIds d.type newId).Nodup ∧ ∀ i ∈ genIds d.type newId, i ∉ allIds l
  | .update u => UpdateOk l u
  | .delete _ => True

/-- The per-step side conditions along a whole composition. -/
def OpsFresh : List FlowNode → List EditOp → Prop
  | _, [] => True
  | l, op :: rest => OpFresh l op ∧ OpsFresh (applyOp l op) rest

instance (l : List FlowNode) : Decidable (UniqueIds l) := by
  unfold UniqueIds; infer_instance

instance (l : List FlowNode) (u : FlowNode) : Decidable (UpdateOk l u) := by
  unfold UpdateOk; infer_instance

instance (l : List FlowNode) : (op : EditOp) → Decidable (OpFresh l op)
  | .add t sel newId => by unfold OpFresh; infer_instance
  | .drop d tgt pos newId => by unfold OpFresh; infer_instance
  | .update u => by unfold OpFresh; infer_instance
  | .delete i => by unfold OpFresh; infer_instance

/-- Decidability of the composed side conditions, by recursion on the ops. -/
def decOpsFresh : (ops : List EditOp) → (l : List FlowNode) → Decidable (OpsFresh l ops)
  | [], _ => isTrue trivial
  | op :: rest, l =>
      haveI : Decidable (OpsFresh (applyOp l op) rest) := decOpsFresh rest (applyOp l op)
      inferInstanceAs (Decidable (OpFresh l op ∧ OpsFresh (applyOp l op) rest))

instance (l : List FlowNode) (ops : List EditOp) : Decidable (OpsFresh l ops) :=
  decOpsFresh ops l

/-! ### Concrete sample data -/

/-- The top-level identifiers of a sequence, in order. -/
def topIds (l : List FlowNode) : List String := l.map FlowNode.id

/-- A minimal task leaf used in concrete instances. -/
def mkTask (i : String) : FlowNode := .single { id := i, title := "t" } .task

/-- A minimal branch node used in concrete instances. -/
def mkBranch (i : String) (cs : List FlowNode) : FlowNode := .branch { id := i, title := "g" } cs

/-- A minimal block node used in concrete instances. -/
def mkBlock (i : String) (es : List FlowNode) : FlowNode := .block { id := i, title := "b" } es none none

/-- Two distinct task leaves: a sequence with pairwise-distinct identifiers. -/
def c1base : List FlowNode := [mkTask ("a"), mkTask ("b")]

/-- An update payload whose nested child id duplicates a sibling's id. -/
def c1u : FlowNode := mkBranch ("a") [mkTask ("b")]

/-- A single branch node with two children. -/
def c2seq : List FlowNode := [mkBranch ("b") [mkTask ("c1"), mkTask ("c2")]]

/-- A sample composition of editing operations whose generated identifiers are
fresh: an add of a branch after node a, a retitling update of node b, a
sidebar drop before node b, and a delete of the added branch. -/
def c1ops : List EditOp :=
  [ EditOp.add NodeType.branch (some ("a")) "n",
    EditOp.update (FlowNode.single { id := "b", title := "t2" } SingleType.task),
    EditOp.drop { source := "sidebar", type := NodeType.task } (some ("b")) DropPos.before ("m"),
    EditOp.delete ("n") ]

/-- A persisted record whose active id matches no stored layout. -/
def c7app : AppData :=
  { layouts := [{ id := "L1", name := "one", nodes := [] }], activeLayoutId := some ("X") }

/-- The formalisation of claim C8 as stated: a single pair of bounds to which
all three zoom-changing operations clamp their respective raw step. -/
def C8Claim : Prop :=
  ∃ lo hi : ℚ,
    (∀ z dy : ℚ, wheelNewZoom z dy = min (max (z + scaleAmountOf dy) lo) hi) ∧
    (∀ z : ℚ, handleZoomIn z = min (max (z + 1 / 10) lo) hi) ∧
    (∀ z : ℚ, handleZoomOut z = min (max (z - 1 / 10) lo) hi)

/-! ### Basic lemmas about identifiers -/

theorem allIds_append (a b : List FlowNode) : allIds (a ++ b) = allIds a ++ allIds b := by
  induction a with
  | nil => rfl
  | cons n rest ih => simp [allIds, ih]

theorem id_mem_ownAndChildIds (n : FlowNode) : n.id ∈ n.ownAndChildIds := by
  cases n <;> simp [FlowNode.ownAndChildIds, FlowNode.id]

theorem mem_allIds_of_mem {n : FlowNode} {l : List FlowNode} (h : n ∈ l) :
    n.id ∈ allIds l := by
  induction l with
  | nil => cases h
  | cons m rest ih =>
      rcases List.mem_cons.mp h with h | h
      · subst h
        exact List.mem_append_left _ (id_mem_ownAndChildIds n)
      · exact List.mem_append_right _ (ih h)

theorem topIds_sublist (l : List FlowNode) : List.Sublist (topIds l) (allIds l) := by
  induction l with
  | nil => simp [topIds, allIds]
  | cons n rest ih =>
      have h1 : List.Sublist (topIds rest) (n.ownAndChildIds.tail ++ allIds rest) :=
        ih.trans (List.sublist_append_right _ _)
      have h2 : topIds (n :: rest) = n.id :: topIds rest := rfl
      have h3 : allIds (n :: rest) = n.id :: (n.ownAndChildIds.tail ++ allIds rest) := by
        cases n <;> simp [allIds, FlowNode.ownAndChildIds, FlowNode.id]
      rw [h2, h3]
      exact h1.cons₂ n.id

theorem topIds_nodup {l : List FlowNode} (h : UniqueIds l) : (topIds l).Nodup :=
  h.sublist (topIds_sublist l)

theorem length_ownAndChildIds (n : FlowNode) :
    n.ownAndChildIds.length = 1 + n.childCount := by
  cases n <;> simp [FlowNode.ownAndChildIds, FlowNode.childCount, Nat.add_comm]

/-! ### Insertion lemmas -/

theorem allIds_spliceIn_perm (l : List FlowNode) (i : Nat) (x : FlowNode) :
    List.Perm (allIds (spliceIn l i x)) (x.ownAndChildIds ++ allIds l) := by
  unfold spliceIn
  rw [allIds_append]
  have h1 : allIds (x :: l.drop i) = x.ownAndChildIds ++ allIds (l.drop i) := rfl
  rw [h1, ← List.append_assoc]
  have h4 : allIds (l.take i) ++ allIds (l.drop i) = allIds l := by
    rw [← allIds_append, List.take_append_drop]
  have h5 : x.ownAndChildIds ++ allIds (l.take i) ++ allIds (l.drop i)
      = x.ownAndChildIds ++ allIds l := by
    rw [List.append_assoc, h4]
  rw [← h5]
  exact List.perm_append_comm.append_right _

theorem append_eq_splice_length (l : List FlowNode) (n : FlowNode) :
    l ++ [n] = spliceIn l l.length n := by
  simp [spliceIn]

theorem insertIntoList_eq_splice (l : List FlowNode) (n : FlowNode)
    (tid : Option String) (pos : DropPos) :
    ∃ k, insertIntoList l n tid pos = spliceIn l k n := by
  cases pos with
  | append =>
      refine ⟨l.length, ?_⟩
      rw [← append_eq_splice_length]
      cases tid <;> rfl
  | before =>
      cases tid with
      | none => exact ⟨l.length, append_eq_splice_length l n⟩
      | some t =>
          by_cases ht : t = ""
          · refine ⟨l.length, ?_⟩
            simp [insertIntoList, ht, append_eq_splice_length]
          · cases h : findIdxById l t with
            | none =>
                refine ⟨l.length, ?_⟩
                simp [insertIntoList, ht, h, append_eq_splice_length]
            | some ti =>
                refine ⟨ti, ?_⟩
                simp [insertIntoList, ht, h]
  | after =>
      cases tid with
      | none => exact ⟨l.length, append_eq_splice_length l n⟩
      | some t =>
          by_cases ht : t = ""
          · refine ⟨l.length, ?_⟩
            simp [insertIntoList, ht, append_eq_splice_length]
          · cases h : findIdxById l t with
            | none =>
                refine ⟨l.length, ?_⟩
                simp [insertIntoList, ht, h, append_eq_splice_length]
            | some ti =>
                refine ⟨ti + 1, ?_⟩
                simp [insertIntoList, ht, h]

theorem handleAddNode_eq_splice (l : List FlowNode) (sel : Option String)
    (t : NodeType) (newId : String) :
    ∃ k, handleAddNode l sel t newId = spliceIn l k (createNode t newId) := by
  cases sel with
  | none => exact ⟨l.length, append_eq_splice_length l _⟩
  | some s =>
      by_cases hs : s = ""
      · refine ⟨l.length, ?_⟩
        simp [handleAddNode, hs, append_eq_splice_length]
      · cases h : findIdxById l s with
        | none =>
            refine ⟨l.length, ?_⟩
            simp [handleAddNode, hs, h, append_eq_splice_length]
        | some i =>
            refine ⟨i + 1, ?_⟩
            simp [handleAddNode, hs, h]

theorem uniqueIds_spliceIn {l : List FlowNode} {x : FlowNode} (h : UniqueIds l)
    (hx : x.ownAndChildIds.Nodup) (hfresh : ∀ i ∈ x.ownAndChildIds, i ∉ allIds l)
    (k : Nat) : UniqueIds (spliceIn l k x) := by
  have hp := allIds_spliceIn_perm l k x
  unfold UniqueIds
  rw [hp.nodup_iff, List.nodup_append]
  exact ⟨hx, h, fun a ha hb => hfresh a ha hb⟩

theorem uniqueIds_insertIntoList {l : List FlowNode} {x : FlowNode} (h : UniqueIds l)
    (hx : x.ownAndChildIds.Nodup) (hfresh : ∀ i ∈ x.ownAndChildIds, i ∉ allIds l)
    (tid : Option String) (pos : DropPos) : UniqueIds (insertIntoList l x tid pos) := by
  obtain ⟨k, hk⟩ := insertIntoList_eq_splice l x tid pos
  rw [hk]
  exact uniqueIds_spliceIn h hx hfresh k

theorem ownIds_createNode (t : NodeType) (newId : String) :
    (createNode t newId).ownAndChildIds = genIds t newId := by
  cases t <;> rfl

theorem uniqueIds_handleAddNode {l : List FlowNode} (h : UniqueIds l)
    (sel : Option String) (t : NodeType) (newId : String)
    (hn : (genIds t newId).Nodup) (hf : ∀ i ∈ genIds t newId, i ∉ allIds l) :
    UniqueIds (handleAddNode l sel t newId) := by
  obtain ⟨k, hk⟩ := handleAddNode_eq_splice l sel t newId
  rw [hk]
  refine uniqueIds_spliceIn h ?_ ?_ k
  · rw [ownIds_createNode]; exact hn
  · rw [ownIds_createNode]; exact hf

theorem extractFirst_perm {p : FlowNode → Bool} {l : List FlowNode} {m : FlowNode}
    {rest : List FlowNode} (h : extractFirst p l = some (m, rest)) :
    List.Perm (allIds l) (m.ownAndChildIds ++ allIds rest) := by
  induction l generalizing m rest with
  | nil => simp [extractFirst] at h
  | cons n tl ih =>
      by_cases hp : p n
      · simp [extractFirst, hp] at h
        obtain ⟨rfl, rfl⟩ := h
        exact List.Perm.refl _
      · cases he : extractFirst p tl with
        | none => simp [extractFirst, hp, he] at h
        | some pr =>
            obtain ⟨m', tl'⟩ := pr
            simp [extractFirst, hp, he] at h
            obtain ⟨rfl, rfl⟩ := h
            have hperm := ih he
            show List.Perm (n.ownAndChildIds ++ allIds tl)
              (m'.ownAndChildIds ++ (n.ownAndChildIds ++ allIds tl'))
            have step1 : List.Perm (n.ownAndChildIds ++ allIds tl)
                (n.ownAndChildIds ++ (m'.ownAndChildIds ++ allIds tl')) :=
              hperm.append_left n.ownAndChildIds
            have step2 : List.Perm
                (n.ownAndChildIds ++ (m'.ownAndChildIds ++ allIds tl'))
                (m'.ownAndChildIds ++ (n.ownAndChildIds ++ allIds tl')) := by
              rw [← List.append_assoc, ← List.append_assoc]
              exact List.perm_append_comm.append_right (allIds tl')
            exact step1.trans step2

/-! ### Delete lemmas -/

theorem ownIds_deleteChildren_sublist (i : String) (n : FlowNode) :
    List.Sublist ((deleteChildren i n).ownAndChildIds) n.ownAndChildIds := by
  cases n with
  | single b s => exact List.Sublist.refl _
  | branch b cs =>
      simp only [deleteChildren, FlowNode.ownAndChildIds]
      exact ((List.filter_sublist cs).map FlowNode.id).cons₂ b.id
  | block b es w h =>
      simp only [deleteChildren, FlowNode.ownAndChildIds]
      exact ((List.filter_sublist es).map FlowNode.id).cons₂ b.id

theorem deleteRecursive_cons_ne (i : String) (n : FlowNode) (rest : List FlowNode)
    (hn : ¬ n.id = i) :
    deleteRecursive i (n :: rest) = deleteChildren i n :: deleteRecursive i rest := by
  simp [deleteRecursive, List.filter_cons, hn]

theorem deleteRecursive_cons_eq (i : String) (n : FlowNode) (rest : List FlowNode)
    (hn : n.id = i) :
    deleteRecursive i (n :: rest) = deleteRecursive i rest := by
  simp [deleteRecursive, List.filter_cons, hn]

theorem allIds_delete_sublist (i : String) (l : List FlowNode) :
    List.Sublist (allIds (deleteRecursive i l)) (allIds l) := by
  induction l with
  | nil => exact List.Sublist.refl _
  | cons n rest ih =>
      by_cases hn : n.id = i
      · rw [deleteRecursive_cons_eq i n rest hn]
        exact ih.trans (List.sublist_append_right _ _)
      · rw [deleteRecursive_cons_ne i n rest hn]
        exact (ownIds_deleteChildren_sublist i n).append ih

theorem uniqueIds_deleteRecursive {l : List FlowNode} (h : UniqueIds l) (i : String) :
    UniqueIds (deleteRecursive i l) :=
  h.sublist (allIds_delete_sublist i l)

theorem ownIds_deleteChildren_filter (i : String) (n : FlowNode) (hn : ¬ n.id = i) :
    (deleteChildren i n).ownAndChildIds
      = n.ownAndChildIds.filter (fun x => x ≠ i) := by
  cases n with
  | single b s =>
      have hb : ¬ b.id = i := hn
      simp [deleteChildren, FlowNode.ownAndChildIds, List.filter_cons, hb]
  | branch b cs =>
      have hb : ¬ b.id = i := hn
      simp only [deleteChildren, FlowNode.ownAndChildIds, List.filter_cons]
      have hcomp : (fun c : FlowNode => decide (c.id ≠ i))
          = ((fun x : String => decide (x ≠ i)) ∘ FlowNode.id) := rfl
      rw [hcomp, ← List.filter_map FlowNode.id cs]
      simp [hb]
  | block b es w h =>
      have hb : ¬ b.id = i := hn
      simp only [deleteChildren, FlowNode.ownAndChildIds, List.filter_cons]
      have hcomp : (fun c : FlowNode => decide (c.id ≠ i))
          = ((fun x : String => decide (x ≠ i)) ∘ FlowNode.id) := rfl
      rw [hcomp, ← List.filter_map FlowNode.id es]
      simp [hb]

theorem allIds_delete_no_top {i : String} {l : List FlowNode}
    (h : ∀ n ∈ l, ¬ n.id = i) :
    allIds (deleteRecursive i l) = (allIds l).filter (fun x => x ≠ i) := by
  induction l with
  | nil => rfl
  | cons n rest ih =>
      have hn : ¬ n.id = i := h n (List.mem_cons_self n rest)
      rw [deleteRecursive_cons_ne i n rest hn]
      have hrec : allIds (deleteRecursive i rest)
          = (allIds rest).filter (fun x => x ≠ i) :=
        ih (fun m hm => h m (List.mem_cons_of_mem n hm))
      show (deleteChildren i n).ownAndChildIds ++ allIds (deleteRecursive i rest)
          = (n.ownAndChildIds ++ allIds rest).filter (fun x => x ≠ i)
      rw [List.filter_append, hrec, ownIds_deleteChildren_filter i n hn]

theorem not_mem_allIds_delete (i : String) (l : List FlowNode) :
    i ∉ allIds (deleteRecursive i l) := by
  induction l with
  | nil => simp [deleteRecursive, allIds]
  | cons n rest ih =>
      by_cases hn : n.id = i
      · rw [deleteRecursive_cons_eq i n rest hn]; exact ih
      · rw [deleteRecursive_cons_ne i n rest hn]
        intro hmem
        rcases List.mem_append.mp hmem with hm | hm
        · rw [ownIds_deleteChildren_filter i n hn] at hm
          have := List.of_mem_filter hm
          simp at this
        · exact ih hm

theorem deleteChildren_eq_self {i : String} {n : FlowNode}
    (h : ∀ j ∈ n.ownAndChildIds, ¬ j = i) : deleteChildren i n = n := by
  cases n with
  | single b s => rfl
  | branch b cs =>
      simp only [deleteChildren]
      have : cs.filter (fun c => c.id ≠ i) = cs := by
        refine List.filter_eq_self.mpr (fun c hc => ?_)
        have : ¬ c.id = i := by
          refine h c.id ?_
          simp only [FlowNode.ownAndChildIds]
          exact List.mem_cons_of_mem _ (List.mem_map_of_mem FlowNode.id hc)
        simpa using this
      rw [this]
  | block b es w hh =>
      simp only [deleteChildren]
      have : es.filter (fun c => c.id ≠ i) = es := by
        refine List.filter_eq_self.mpr (fun c hc => ?_)
        have : ¬ c.id = i := by
          refine h c.id ?_
          simp only [FlowNode.ownAndChildIds]
          exact List.mem_cons_of_mem _ (List.mem_map_of_mem FlowNode.id hc)
        simpa using this
      rw [this]

theorem delete_eq_self {i : String} {l : List FlowNode} (h : i ∉ allIds l) :
    deleteRecursive i l = l := by
  induction l with
  | nil => rfl
  | cons n rest ih =>
      have hown : ∀ j ∈ n.ownAndChildIds, ¬ j = i := by
        intro j hj hji
        exact h (List.mem_append_left _ (hji ▸ hj))
      have hn : ¬ n.id = i := hown n.id (id_mem_ownAndChildIds n)
      rw [deleteRecursive_cons_ne i n rest hn, deleteChildren_eq_self hown,
        ih (fun hm => h (List.mem_append_right _ hm))]

theorem delete_idempotent (i : String) (l : List FlowNode) :
    deleteRecursive i (deleteRecursive i l) = deleteRecursive i l :=
  delete_eq_self (not_mem_allIds_delete i l)

theorem delete_append (i : String) (a b : List FlowNode) :
    deleteRecursive i (a ++ b) = deleteRecursive i a ++ deleteRecursive i b := by
  simp [deleteRecursive, List.filter_append, List.map_append]

theorem filter_ne_length {S : List String} {i : String} (hn : S.Nodup) (hm : i ∈ S) :
    (S.filter (fun x => x ≠ i)).length + 1 = S.length := by
  induction S with
  | nil => cases hm
  | cons a rest ih =>
      by_cases ha : a = i
      · subst ha
        have hnot : a ∉ rest := (List.nodup_cons.mp hn).1
        have hrest : rest.filter (fun x => x ≠ a) = rest := by
          refine List.filter_eq_self.mpr (fun x hx => ?_)
          simp only [ne_eq, decide_not, Bool.not_eq_true', decide_eq_false_iff_not]
          intro hxa
          exact hnot (hxa ▸ hx)
        have hstep : (a :: rest).filter (fun x => x ≠ a) = rest := by
          rw [List.filter_cons]
          have hfalse : (decide (a ≠ a)) = false := by simp
          rw [hfalse, hrest]
          simp
        rw [hstep, List.length_cons]
      · have hm' : i ∈ rest := by
          rcases List.mem_cons.mp hm with h | h
          · exact absurd h.symm ha
          · exact h
        have ih' := ih (List.nodup_cons.mp hn).2 hm'
        have hstep : (a :: rest).filter (fun x => x ≠ i)
            = a :: rest.filter (fun x => x ≠ i) := by
          rw [List.filter_cons]
          have htrue : (decide (a ≠ i)) = true := by simp [ha]
          rw [htrue]
          simp
        rw [hstep, List.length_cons, List.length_cons]
        omega

theorem totalCount_delete_nested {i : String} {l : List FlowNode} (h : UniqueIds l)
    (hm : i ∈ allIds l) (htop : ∀ n ∈ l, ¬ n.id = i) :
    totalCount (deleteRecursive i l) + 1 = totalCount l := by
  unfold totalCount
  rw [allIds_delete_no_top htop]
  exact filter_ne_length h hm

theorem totalCount_delete_top {i : String} {l : List FlowNode} (h : UniqueIds l)
    {n : FlowNode} (hm : n ∈ l) (hid : n.id = i) :
    totalCount (deleteRecursive i l) + (1 + n.childCount) = totalCount l := by
  obtain ⟨pre, post, rfl⟩ := List.append_of_mem hm
  have hids : allIds (pre ++ n :: post)
      = allIds pre ++ (n.ownAndChildIds ++ allIds post) := by
    rw [allIds_append]; rfl
  have hnodup : (allIds pre ++ (n.ownAndChildIds ++ allIds post)).Nodup := by
    rw [← hids]; exact h
  rw [List.nodup_append] at hnodup
  obtain ⟨hpre, hmid, hdisj⟩ := hnodup
  rw [List.nodup_append] at hmid
  obtain ⟨hown, hpost, hdisj2⟩ := hmid
  have hipre : i ∉ allIds pre := by
    intro hip
    exact hdisj hip (List.mem_append_left _ (hid ▸ id_mem_ownAndChildIds n))
  have hipost : i ∉ allIds post :=
    fun hip => hdisj2 (hid ▸ id_mem_ownAndChildIds n) hip
  have hdel : deleteRecursive i (pre ++ n :: post) = pre ++ post := by
    rw [delete_append, delete_eq_self hipre, deleteRecursive_cons_eq i n post hid,
      delete_eq_self hipost]
  rw [hdel]
  have e1 : totalCount (pre ++ post) = (allIds pre).length + (allIds post).length := by
    unfold totalCount; rw [allIds_append, List.length_append]
  have e2 : totalCount (pre ++ n :: post)
      = (allIds pre).length + ((1 + n.childCount) + (allIds post).length) := by
    unfold totalCount
    rw [hids, List.length_append, List.length_append, length_ownAndChildIds]
  rw [e1, e2]
  omega

/-! ### Update lemmas -/

theorem updateOne_eq_of_id {u n : FlowNode} (h : n.id = u.id) : updateOne u n = u := by
  simp [updateOne, h]

theorem ownIds_updateOne_of_ne {u n : FlowNode} (h : ¬ n.id = u.id) :
    (updateOne u n).ownAndChildIds = n.ownAndChildIds := by
  cases n with
  | single b s => simp [updateOne, h]
  | branch b cs =>
      have hstep : updateOne u (.branch b cs) =
          (if cs.any (fun c => c.id == u.id) then
            FlowNode.branch b (cs.map (fun c => if c.id = u.id then u else c))
          else .branch b cs) := by
        simp [updateOne, h]
      rw [hstep]
      by_cases hc : (cs.any (fun c => c.id == u.id)) = true
      · rw [if_pos hc]
        show b.id :: (cs.map (fun c => if c.id = u.id then u else c)).map FlowNode.id
            = b.id :: cs.map FlowNode.id
        congr 1
        rw [List.map_map]
        refine List.map_congr_left (fun c hcm => ?_)
        show FlowNode.id (if c.id = u.id then u else c) = c.id
        by_cases hcu : c.id = u.id
        · rw [if_pos hcu]; exact hcu.symm
        · rw [if_neg hcu]
      · rw [if_neg hc]
  | block b es w hh =>
      have hstep : updateOne u (.block b es w hh) =
          (if es.any (fun c => c.id == u.id) then
            FlowNode.block b (es.map (fun c => if c.id = u.id then u else c)) w hh
          else .block b es w hh) := by
        simp [updateOne, h]
      rw [hstep]
      by_cases hc : (es.any (fun c => c.id == u.id)) = true
      · rw [if_pos hc]
        show b.id :: (es.map (fun c => if c.id = u.id then u else c)).map FlowNode.id
            = b.id :: es.map FlowNode.id
        congr 1
        rw [List.map_map]
        refine List.map_congr_left (fun c hcm => ?_)
        show FlowNode.id (if c.id = u.id then u else c) = c.id
        by_cases hcu : c.id = u.id
        · rw [if_pos hcu]; exact hcu.symm
        · rw [if_neg hcu]
      · rw [if_neg hc]

theorem allIds_update_no_top {u : FlowNode} {l : List FlowNode}
    (h : ∀ n ∈ l, ¬ n.id = u.id) : allIds (updateRecursive u l) = allIds l := by
  induction l with
  | nil => rfl
  | cons n rest ih =>
      show (updateOne u n).ownAndChildIds ++ allIds (updateRecursive u rest)
          = n.ownAndChildIds ++ allIds rest
      rw [ownIds_updateOne_of_ne (h n (List.mem_cons_self n rest)),
        ih (fun m hm => h m (List.mem_cons_of_mem n hm))]

theorem uniqueIds_updateRecursive {l : List FlowNode} {u : FlowNode}
    (h : UniqueIds l) (hok : UpdateOk l u) : UniqueIds (updateRecursive u l) := by
  by_cases htop : ∀ n ∈ l, ¬ n.id = u.id
  · unfold UniqueIds
    rw [allIds_update_no_top htop]
    exact h
  · push_neg at htop
    obtain ⟨n, hn, hid⟩ := htop
    obtain ⟨pre, post, rfl⟩ := List.append_of_mem hn
    have hupd : updateRecursive u (pre ++ n :: post)
        = updateRecursive u pre ++ updateOne u n :: updateRecursive u post := by
      simp [updateRecursive]
    have htop' : (topIds pre ++ n.id :: topIds post).Nodup := by
      have := topIds_nodup h
      have htids : topIds (pre ++ n :: post) = topIds pre ++ n.id :: topIds post := by
        simp [topIds]
      rwa [htids] at this
    rw [List.nodup_append] at htop'
    obtain ⟨hp1, hp2, hp3⟩ := htop'
    have hpre_ne : ∀ m ∈ pre, ¬ m.id = u.id := by
      intro m hm hmeq
      refine hp3 (a := u.id) ?_ ?_
      · rw [← hmeq]; exact List.mem_map_of_mem FlowNode.id hm
      · rw [← hid]; exact List.mem_cons_self _ _
    have hpost_ne : ∀ m ∈ post, ¬ m.id = u.id := by
      intro m hm hmeq
      have hcontra : n.id ∈ topIds post := by
        rw [hid, ← hmeq]; exact List.mem_map_of_mem FlowNode.id hm
      exact (List.nodup_cons.mp hp2).1 hcontra
    have hA : allIds (updateRecursive u pre) = allIds pre := allIds_update_no_top hpre_ne
    have hB : allIds (updateRecursive u post) = allIds post := allIds_update_no_top hpost_ne
    have hone : updateOne u n = u := updateOne_eq_of_id hid
    have hmidids : allIds (updateOne u n :: updateRecursive u post)
        = u.ownAndChildIds ++ allIds post := by
      show (updateOne u n).ownAndChildIds ++ allIds (updateRecursive u post)
          = u.ownAndChildIds ++ allIds post
      rw [hone, hB]
    obtain ⟨hund, hsub⟩ := hok n hn hid
    have horig : (allIds pre ++ (n.ownAndChildIds ++ allIds post)).Nodup := by
      have hids : allIds (pre ++ n :: post)
          = allIds pre ++ (n.ownAndChildIds ++ allIds post) := by
        rw [allIds_append]; rfl
      rw [← hids]; exact h
    rw [List.nodup_append] at horig
    obtain ⟨ho1, ho2, ho3⟩ := horig
    rw [List.nodup_append] at ho2
    obtain ⟨ho4, ho5, ho6⟩ := ho2
    unfold UniqueIds
    rw [hupd, allIds_append, hA, hmidids, List.nodup_append, List.nodup_append]
    refine ⟨ho1, ⟨hund, ho5, ?_⟩, ?_⟩
    · intro a ha hb
      have hmem : a ∈ allIds (pre ++ n :: post) := by
        rw [allIds_append]
        refine List.mem_append_right _ ?_
        show a ∈ n.ownAndChildIds ++ allIds post
        exact List.mem_append_right _ hb
      exact ho6 (hsub a ha hmem) hb
    · intro a ha hb
      rcases List.mem_append.mp hb with hb' | hb'
      · have hmem : a ∈ allIds (pre ++ n :: post) := by
          rw [allIds_append]
          exact List.mem_append_left _ ha
        exact ho3 ha (List.mem_append_left _ (hsub a hb' hmem))
      · exact ho3 ha (List.mem_append_right _ hb')

/-! ### Drop and composed-operation preservation -/

theorem uniqueIds_handleDropNode {l : List FlowNode} (h : UniqueIds l) (d : DragData)
    (tid : Option String) (pos : DropPos) (newId : String)
    (hf : d.source = "sidebar" →
      (genIds d.type newId).Nodup ∧ ∀ i ∈ genIds d.type newId, i ∉ allIds l) :
    UniqueIds (handleDropNode l d tid pos newId) := by
  unfold handleDropNode
  by_cases hguard : jsStrictEq d.id tid = true
  · rw [if_pos hguard]; exact h
  · rw [if_neg hguard]
    by_cases hsb : d.source = "sidebar"
    · rw [if_pos hsb]
      obtain ⟨h1, h2⟩ := hf hsb
      refine uniqueIds_insertIntoList h ?_ ?_ tid pos
      · rw [ownIds_createNode]; exact h1
      · rw [ownIds_createNode]; exact h2
    · rw [if_neg hsb]
      by_cases hcv : d.source = "canvas"
      · rw [if_pos hcv]
        cases hdid : d.id with
        | none => exact h
        | some mid =>
            show UniqueIds
              (match extractFirst (fun n => n.id == mid) l with
              | none => l
              | some m => insertIntoList m.2 m.1 tid pos)
            cases hex : extractFirst (fun n => n.id == mid) l with
            | none => exact h
            | some pr =>
                have hperm := extractFirst_perm hex
                have hnodup : (pr.1.ownAndChildIds ++ allIds pr.2).Nodup :=
                  hperm.nodup_iff.mp h
                rw [List.nodup_append] at hnodup
                obtain ⟨hn1, hn2, hn3⟩ := hnodup
                exact uniqueIds_insertIntoList hn2 hn1 (fun a ha hb => hn3 ha hb) tid pos
      · rw [if_neg hcv]; exact h

theorem uniqueIds_applyOp {l : List FlowNode} {op : EditOp} (h : UniqueIds l)
    (hf : OpFresh l op) : UniqueIds (applyOp l op) := by
  cases op with
  | add t sel newId => exact uniqueIds_handleAddNode h sel t newId hf.1 hf.2
  | drop d tgt pos newId => exact uniqueIds_handleDropNode h d tgt pos newId hf
  | update u => exact uniqueIds_updateRecursive h hf
  | delete i => exact uniqueIds_deleteRecursive h i

theorem uniqueIds_applyOps {ops : List EditOp} {l : List FlowNode} (h : UniqueIds l)
    (hf : OpsFresh l ops) : UniqueIds (applyOps l ops) := by
  induction ops generalizing l with
  | nil => exact h
  | cons op rest ih => exact ih (uniqueIds_applyOp h hf.1) hf.2

/-! ### Find / splice placement lemmas -/

theorem findIdxById_eq_none {l : List FlowNode} {t : String}
    (h : ∀ x ∈ l, ¬ x.id = t) : findIdxById l t = none := by
  induction l with
  | nil => rfl
  | cons n rest ih =>
      have hn := h n (List.mem_cons_self n rest)
      simp [findIdxById, hn, ih (fun m hm => h m (List.mem_cons_of_mem n hm))]

theorem findIdxById_append_first {pre post : List FlowNode} {a : FlowNode} {t : String}
    (ha : a.id = t) (hpre : ∀ x ∈ pre, ¬ x.id = t) :
    findIdxById (pre ++ a :: post) t = some pre.length := by
  induction pre with
  | nil => simp [findIdxById, ha]
  | cons n rest ih =>
      have hn := hpre n (List.mem_cons_self n rest)
      simp [findIdxById, hn, ih (fun m hm => hpre m (List.mem_cons_of_mem n hm))]

theorem spliceIn_decomp (pre post : List FlowNode) (a n : FlowNode) :
    spliceIn (pre ++ a :: post) pre.length n = pre ++ n :: a :: post := by
  simp [spliceIn]

theorem spliceIn_decomp_succ (pre post : List FlowNode) (a n : FlowNode) :
    spliceIn (pre ++ a :: post) (pre.length + 1) n = pre ++ a :: n :: post := by
  induction pre with
  | nil => rfl
  | cons x rest ih =>
      show x :: spliceIn (rest ++ a :: post) (rest.length + 1) n
          = x :: (rest ++ a :: n :: post)
      rw [ih]

theorem insertIntoList_not_found {l : List FlowNode} {t : String}
    (h : ∀ x ∈ l, ¬ x.id = t) (n : FlowNode) (pos : DropPos) :
    insertIntoList l n (some t) pos = l ++ [n] := by
  cases pos with
  | append => rfl
  | before =>
      by_cases ht : t = ""
      · simp [insertIntoList, ht]
      · simp [insertIntoList, ht, findIdxById_eq_none h]
  | after =>
      by_cases ht : t = ""
      · simp [insertIntoList, ht]
      · simp [insertIntoList, ht, findIdxById_eq_none h]

/-! ### Claim theorems -/

/-- Claim C1 (counterexample): starting from the duplicate-free sequence
`[task a, task b]`, a single composition step consisting of the update
operation applied to a payload that nests a child with the sibling's id `b`
yields a sequence whose identifiers are no longer pairwise distinct, so the
claim as stated (over arbitrary compositions of the four operations) fails. -/
theorem C1_counterexample :
    UniqueIds c1base ∧ ¬ UniqueIds (applyOps c1base [EditOp.update c1u]) :=
  ⟨by decide, by decide⟩

/-- Claim C1 (amended): every sequence reachable from a sequence with
pairwise-distinct identifiers by a finite composition of the insert
operations (`handleAddNode`, `handleDropNode`), the update operation
(`handleUpdateNode`) and the delete operation (`handleDeleteNode`) again has
pairwise-distinct identifiers across the top level and all nested children,
provided the freshly generated identifiers of each insert (modelling the
monotone `Date.now()` source) are pairwise distinct and absent from the
current tree, and each update payload that replaces a whole top-level node
has duplicate-free identifiers, every one of which is either fresh or
already belongs to the replaced node. -/
theorem C1_unique_preserved (l : List FlowNode) (ops : List EditOp)
    (h : UniqueIds l) (hf : OpsFresh l ops) : UniqueIds (applyOps l ops) :=
  uniqueIds_applyOps h hf

/-- Witness for C1: a concrete four-step composition (add a branch after `a`,
retitle `b`, drop a sidebar task before `b`, delete the added branch) with
fresh generated ids keeps the identifiers pairwise distinct. -/
theorem C1_unique_preserved_witness : UniqueIds (applyOps c1base c1ops) :=
  C1_unique_preserved c1base c1ops (by decide) (by decide)

/-- Claim C2 (counterexample): deleting the branch node `b`, which owns two
nested children, removes three entries in total across the top level and the
nested children (the count drops from 3 to 0), not exactly one, although the
identifiers are unique and `b` occurs in the tree. -/
theorem C2_counterexample :
    UniqueIds c2seq ∧ "b" ∈ allIds c2seq ∧
      totalCount (deleteRecursive ("b") c2seq) + 1 ≠ totalCount c2seq := by
  decide

/-- Claim C2 (amended): on a sequence with unique identifiers,
`deleteRecursive` removes nothing (the sequence is returned unchanged) when
the id occurs nowhere; removes the matched node together with its nested
children (`1 + childCount` entries) when the id matches a top-level node;
removes exactly one entry when the id occurs only as a nested child; and is
idempotent: a second call with the same id is a no-op. -/
theorem C2_delete_behaviour (l : List FlowNode) (i : String) (h : UniqueIds l) :
    (i ∉ allIds l → deleteRecursive i l = l) ∧
    (∀ n ∈ l, n.id = i →
      totalCount (deleteRecursive i l) + (1 + n.childCount) = totalCount l) ∧
    ((i ∈ allIds l ∧ ∀ n ∈ l, ¬ n.id = i) →
      totalCount (deleteRecursive i l) + 1 = totalCount l) ∧
    deleteRecursive i (deleteRecursive i l) = deleteRecursive i l := by
  refine ⟨fun hmem => delete_eq_self hmem, ?_, ?_, delete_idempotent i l⟩
  · intro n hn hid
    exact totalCount_delete_top h hn hid
  · intro hp
    exact totalCount_delete_nested h hp.1 hp.2

/-- Witness for C2: deleting the nested child `c1` of the branch `b` removes
exactly one entry from the tree. -/
theorem C2_delete_behaviour_witness :
    totalCount (deleteRecursive ("c1") c2seq) + 1 = totalCount c2seq :=
  (C2_delete_behaviour c2seq ("c1") (by decide)).2.2.1 ⟨by decide, by decide⟩

/-- Claim C3: for any current transform with the zoom in the allowed range and
any modifier-wheel event, the world point under the pointer still maps to the
pointer's screen point after the zoom (`world * zoom' + pan' = mouse` on both
axes), the new zoom stays clamped to the wheel range, and in particular from
zoom 1 and pan (0,0) an event at (100,100) producing zoom 1.5 yields pan
(-50,-50). -/
theorem C3_zoom_centered_pan (z px py mx my dy : ℚ) (hz1 : 1/5 ≤ z) (hz2 : z ≤ 3) :
    ((mx - px) / z) * (wheelZoom ⟨z, px, py⟩ mx my dy).zoom
        + (wheelZoom ⟨z, px, py⟩ mx my dy).panX = mx ∧
    ((my - py) / z) * (wheelZoom ⟨z, px, py⟩ mx my dy).zoom
        + (wheelZoom ⟨z, px, py⟩ mx my dy).panY = my ∧
    1/5 ≤ (wheelZoom ⟨z, px, py⟩ mx my dy).zoom ∧
    (wheelZoom ⟨z, px, py⟩ mx my dy).zoom ≤ 3 ∧
    wheelZoom ⟨1, 0, 0⟩ 100 100 (-500) = ⟨3/2, -50, -50⟩ := by
  refine ⟨?_, ?_, ?_, ?_, ?_⟩
  · show ((mx - px) / z) * wheelNewZoom z dy
        + (mx - (mx - px) / z * wheelNewZoom z dy) = mx
    ring
  · show ((my - py) / z) * wheelNewZoom z dy
        + (my - (my - py) / z * wheelNewZoom z dy) = my
    ring
  · exact le_min (le_max_right _ _) (by norm_num)
  · exact min_le_right _ _
  · norm_num [wheelZoom, wheelNewZoom, scaleAmountOf, min_def, max_def]

/-- Witness for C3: the spec scenario itself, at zoom 1 and pan (0,0) with the
event at (100,100) and a wheel delta of -500. -/
theorem C3_zoom_centered_pan_witness :
    ((100 - 0) / 1) * (wheelZoom ⟨1, 0, 0⟩ 100 100 (-500)).zoom
        + (wheelZoom ⟨1, 0, 0⟩ 100 100 (-500)).panX = 100 :=
  (C3_zoom_centered_pan 1 0 0 100 100 (-500) (by norm_num) (by norm_num)).1

/-- Claim C4 (counterexample): a node with the empty-string id is present at
the top level as the anchor, yet a drop with position before appends the
inserted node last instead of placing it immediately preceding the anchor:
the source guard `position === 'append' || !targetId` treats the empty
string as a missing target. -/
theorem C4_counterexample :
    FlowNode.id (mkTask ("")) = "" ∧
    handleDropNode [mkTask ("")] { source := "sidebar", type := NodeType.task }
        (some ("")) DropPos.before "n"
      = [mkTask (""), createNode NodeType.task "n"] ∧
    ¬ handleDropNode [mkTask ("")] { source := "sidebar", type := NodeType.task }
        (some ("")) DropPos.before "n"
      = [createNode NodeType.task "n", mkTask ("")] := by
  refine ⟨rfl, rfl, ?_⟩
  intro h
  have h2 : mkTask ("") = createNode NodeType.task "n" := (List.cons_eq_cons.mp h).1
  simp [mkTask, createNode] at h2

/-- Claim C4 (amended): for a non-empty anchor id present at the top level,
the drop insertion places the node immediately preceding the anchor for
position before and immediately following it for after; with position append,
a missing target, an empty-string target (JS falsiness), or an anchor id not
found at the top level, the node is placed last. A sidebar payload inserts
the freshly created node this way into the unchanged sequence, and a canvas
payload first removes the moved node from its old top-level position and then
splices it by the same rule. -/
theorem C4_insert_ordering :
    (∀ (pre post : List FlowNode) (a n : FlowNode) (t : String), ¬ t = "" →
        a.id = t → (∀ x ∈ pre, ¬ x.id = t) →
        insertIntoList (pre ++ a :: post) n (some t) DropPos.before
            = pre ++ n :: a :: post ∧
        insertIntoList (pre ++ a :: post) n (some t) DropPos.after
            = pre ++ a :: n :: post) ∧
    (∀ (l : List FlowNode) (n : FlowNode) (t : String),
        insertIntoList l n (some t) DropPos.append = l ++ [n]) ∧
    (∀ (l : List FlowNode) (n : FlowNode) (pos : DropPos),
        insertIntoList l n none pos = l ++ [n]) ∧
    (∀ (l : List FlowNode) (n : FlowNode) (pos : DropPos),
        insertIntoList l n (some ("")) pos = l ++ [n]) ∧
    (∀ (l : List FlowNode) (n : FlowNode) (t : String) (pos : DropPos),
        (∀ x ∈ l, ¬ x.id = t) → insertIntoList l n (some t) pos = l ++ [n]) ∧
    (∀ (l : List FlowNode) (d : DragData) (tid : Option String) (pos : DropPos)
        (newId : String), d.source = "sidebar" → d.id = none →
        handleDropNode l d tid pos newId
            = insertIntoList l (createNode d.type newId) tid pos) ∧
    (∀ (l : List FlowNode) (d : DragData) (tid : Option String) (pos : DropPos)
        (newId : String) (mid : String) (m : FlowNode) (rest : List FlowNode),
        d.source = "canvas" → d.id = some mid → (∀ t, tid = some t → ¬ mid = t) →
        extractFirst (fun x => x.id == mid) l = some (m, rest) →
        handleDropNode l d tid pos newId = insertIntoList rest m tid pos) := by
  refine ⟨?_, ?_, ?_, ?_, ?_, ?_, ?_⟩
  · intro pre post a n t ht ha hpre
    have hfind := @findIdxById_append_first pre post a t ha hpre
    constructor
    · simp [insertIntoList, ht, hfind, spliceIn_decomp]
    · simp [insertIntoList, ht, hfind, spliceIn_decomp_succ]
  · intro l n t; rfl
  · intro l n pos; cases pos <;> rfl
  · intro l n pos; cases pos <;> simp [insertIntoList]
  · intro l n t pos h
    exact insertIntoList_not_found h n pos
  · intro l d tid pos newId hs hid
    have hguard : jsStrictEq d.id tid = false := by
      rw [hid]; cases tid <;> rfl
    simp [handleDropNode, hguard, hs]
  · intro l d tid pos newId mid m rest hc hid hne hex
    have hguard : jsStrictEq (some mid) tid = false := by
      cases tid with
      | none => rfl
      | some t =>
          have := hne t rfl
          simp [jsStrictEq, this]
    simp [handleDropNode, hid, hguard, hc, hex]

/-- Witness for C4: dropping a fresh node before the non-empty anchor `b` in a
two-node sequence places it immediately before `b`. -/
theorem C4_insert_ordering_witness :
    insertIntoList [mkTask ("a"), mkTask ("b")] (mkTask ("n")) (some ("b")) DropPos.before
        = [mkTask ("a"), mkTask ("n"), mkTask ("b")] :=
  (C4_insert_ordering.1 [mkTask ("a")] [] (mkTask ("b")) (mkTask ("n")) ("b")
    (by decide) (by decide) (by decide)).1

theorem updateOne_eq_self {u n : FlowNode} (h1 : ¬ n.id = u.id)
    (h2 : childMatch u n = false) : updateOne u n = n := by
  cases n with
  | single b s => simp [updateOne, h1]
  | branch b cs =>
      have hc : (cs.any (fun c => c.id == u.id)) = false := h2
      simp [updateOne, h1, hc]
  | block b es w hh =>
      have hc : (es.any (fun c => c.id == u.id)) = false := h2
      simp [updateOne, h1, hc]

theorem updateOne_branch (u : FlowNode) (b : BaseAttrs) (cs : List FlowNode)
    (hbid : ¬ b.id = u.id) :
    updateOne u (.branch b cs)
      = if cs.any (fun c => c.id == u.id) then
          FlowNode.branch b (cs.map (fun c => if c.id = u.id then u else c))
        else .branch b cs := by
  have hcond : ¬ (FlowNode.branch b cs).id = u.id := hbid
  unfold updateOne
  rw [if_neg hcond]

theorem updateOne_block (u : FlowNode) (b : BaseAttrs) (es : List FlowNode)
    (w hh : Option ℚ) (hbid : ¬ b.id = u.id) :
    updateOne u (.block b es w hh)
      = if es.any (fun c => c.id == u.id) then
          FlowNode.block b (es.map (fun c => if c.id = u.id then u else c)) w hh
        else .block b es w hh := by
  have hcond : ¬ (FlowNode.block b es w hh).id = u.id := hbid
  unfold updateOne
  rw [if_neg hcond]

/-- Claim C5: the update operation changes only the node whose id matches the
payload's id: on a sequence with unique identifiers, every top-level node with
a different id and no matching child is returned unchanged at its position,
and inside a branch or block whose own id differs, every child with a
different id is returned unchanged at its position (with the base attributes
and, for blocks, the size overrides preserved). -/
theorem C5_update_targeting (u : FlowNode) (l : List FlowNode) (h : UniqueIds l) :
    (∀ (i : Nat) (n : FlowNode), l[i]? = some n → ¬ n.id = u.id →
        childMatch u n = false → (updateRecursive u l)[i]? = some n) ∧
    (∀ (i : Nat) (b : BaseAttrs) (cs : List FlowNode),
        l[i]? = some (.branch b cs) → ¬ b.id = u.id →
        ∃ cs', (updateRecursive u l)[i]? = some (.branch b cs') ∧
          cs'.length = cs.length ∧
          ∀ (j : Nat) (c : FlowNode), cs[j]? = some c → ¬ c.id = u.id →
            cs'[j]? = some c) ∧
    (∀ (i : Nat) (b : BaseAttrs) (es : List FlowNode) (w hh : Option ℚ),
        l[i]? = some (.block b es w hh) → ¬ b.id = u.id →
        ∃ es', (updateRecursive u l)[i]? = some (.block b es' w hh) ∧
          es'.length = es.length ∧
          ∀ (j : Nat) (c : FlowNode), es[j]? = some c → ¬ c.id = u.id →
            es'[j]? = some c) := by
  refine ⟨?_, ?_, ?_⟩
  · intro i n hget hne hcm
    show (l.map (updateOne u))[i]? = some n
    rw [List.getElem?_map, hget]
    simp [updateOne_eq_self hne hcm]
  · intro i b cs hget hbid
    have hres : (updateRecursive u l)[i]? = some (updateOne u (.branch b cs)) := by
      show (l.map (updateOne u))[i]? = _
      rw [List.getElem?_map, hget]
      rfl
    by_cases hc : (cs.any (fun c => c.id == u.id)) = true
    · refine ⟨cs.map (fun c => if c.id = u.id then u else c), ?_, by simp, ?_⟩
      · rw [hres, updateOne_branch u b cs hbid, if_pos hc]
      · intro j c hj hcne
        rw [List.getElem?_map, hj]
        simp [hcne]
    · refine ⟨cs, ?_, rfl, fun j c hj _ => hj⟩
      rw [hres, updateOne_branch u b cs hbid, if_neg hc]
  · intro i b es w hh hget hbid
    have hres : (updateRecursive u l)[i]? = some (updateOne u (.block b es w hh)) := by
      show (l.map (updateOne u))[i]? = _
      rw [List.getElem?_map, hget]
      rfl
    by_cases hc : (es.any (fun c => c.id == u.id)) = true
    · refine ⟨es.map (fun c => if c.id = u.id then u else c), ?_, by simp, ?_⟩
      · rw [hres, updateOne_block u b es w hh hbid, if_pos hc]
      · intro j c hj hcne
        rw [List.getElem?_map, hj]
        simp [hcne]
    · refine ⟨es, ?_, rfl, fun j c hj _ => hj⟩
      rw [hres, updateOne_block u b es w hh hbid, if_neg hc]

/-- Witness for C5: retitling node `b` leaves the unrelated node `a` at its
position unchanged. -/
theorem C5_update_targeting_witness :
    (updateRecursive (FlowNode.single { id := "b", title := "t2" } SingleType.task)
      c1base)[0]? = some (mkTask ("a")) :=
  (C5_update_targeting (FlowNode.single { id := "b", title := "t2" } SingleType.task)
    c1base (by decide)).1 0 (mkTask ("a")) rfl (by decide) (by decide)

/-- Claim C6 (counterexample): in the map rendering mode, a pointer strictly
before the hovered zone's midpoint (0 < 50) still resolves to the position
after, because the map handler sets the position unconditionally. -/
theorem C6_counterexample :
    (0 : ℚ) < 0 + 100 / 2 ∧ mapDropPosition 0 0 100 = DropPos.after :=
  ⟨by norm_num, rfl⟩

/-- Claim C6 (amended): in the vertical rendering mode the resolved drop
position is before exactly when the pointer's primary-axis coordinate is
strictly before the hovered zone's midpoint and after when it is at or past
it; in the map rendering mode the resolved position is always after,
independent of the pointer coordinates. -/
theorem C6_drop_position :
    (∀ y top h : ℚ,
        (y < top + h / 2 → verticalDropPosition y top h = DropPos.before) ∧
        (top + h / 2 ≤ y → verticalDropPosition y top h = DropPos.after)) ∧
    (∀ y top h : ℚ, mapDropPosition y top h = DropPos.after) := by
  refine ⟨fun y top h => ⟨fun hlt => ?_, fun hge => ?_⟩, fun _ _ _ => rfl⟩
  · simp [verticalDropPosition, hlt]
  · simp [verticalDropPosition, not_lt.mpr hge]

/-- Witness for C6: a pointer above the midpoint resolves to before, and one
below resolves to after, in the vertical mode. -/
theorem C6_drop_position_witness :
    verticalDropPosition 10 0 100 = DropPos.before ∧
    verticalDropPosition 80 0 100 = DropPos.after :=
  ⟨(C6_drop_position.1 10 0 100).1 (by norm_num),
   (C6_drop_position.1 80 0 100).2 (by norm_num)⟩

/-- Claim C7 (counterexample): with a persisted record holding one layout `L1`
and the persisted active id `X` matching no stored layout, the resolved active
id stays the dangling `X` instead of falling back to the first layout's id. -/
theorem C7_counterexample :
    (loadResolve c7app).map Prod.fst = some ("X") ∧
    (∀ l ∈ c7app.layouts, ¬ l.id = "X") :=
  ⟨rfl, by decide⟩

/-- Claim C7 (amended): on startup with a non-empty persisted layout list, the
active id is set to the persisted `activeLayoutId` whenever that field is
present and non-empty — even when it matches no stored layout — and falls
back to the first layout's id only when the field is absent or empty; the
working node sequence is loaded from the layout matching the resolved active
id, falling back to the first layout when no layout matches. -/
theorem C7_load_resolution (l0 : Layout) (rest : List Layout) :
    (loadResolve ⟨l0 :: rest, none⟩ = some (l0.id, l0.nodes)) ∧
    (loadResolve ⟨l0 :: rest, some ("")⟩ = some (l0.id, l0.nodes)) ∧
    (∀ s lay, ¬ s = "" → (l0 :: rest).find? (fun l => l.id = s) = some lay →
        loadResolve ⟨l0 :: rest, some s⟩ = some (s, lay.nodes)) ∧
    (∀ s, ¬ s = "" → (l0 :: rest).find? (fun l => l.id = s) = none →
        loadResolve ⟨l0 :: rest, some s⟩ = some (s, l0.nodes)) := by
  refine ⟨?_, ?_, ?_, ?_⟩
  · have hfind : (l0 :: rest).find? (fun l => l.id = l0.id) = some l0 :=
      List.find?_cons_of_pos _ (by simp)
    simp [loadResolve, jsStrOr, hfind]
  · have hfind : (l0 :: rest).find? (fun l => l.id = l0.id) = some l0 :=
      List.find?_cons_of_pos _ (by simp)
    simp [loadResolve, jsStrOr, hfind]
  · intro s lay hs hfind
    simp [loadResolve, jsStrOr, hs, hfind]
  · intro s hs hfind
    simp [loadResolve, jsStrOr, hs, hfind]

/-- Witness for C7: the record of `C7_counterexample` resolves to the dangling
active id `X` with the first layout's (empty) node sequence. -/
theorem C7_load_resolution_witness :
    loadResolve c7app = some ("X", ([] : List FlowNode)) :=
  (C7_load_resolution { id := "L1", name := "one", nodes := [] } []).2.2.2 ("X")
    (by decide) rfl

/-- Claim C8 (counterexample): no single pair of bounds exists to which all
three zoom-changing operations clamp their raw step: the wheel path admits a
zoom of 2.9, forcing the common upper bound to at least 2.9, while the
discrete zoom-in control maps 2.5 to 2 although the unclamped step 2.6 would
lie below such a bound. -/
theorem C8_counterexample : ¬ C8Claim := by
  rintro ⟨lo, hi, hw, hin, hout⟩
  have h1 : wheelNewZoom (29/10) 0 = 29/10 := by
    norm_num [wheelNewZoom, scaleAmountOf, min_def, max_def]
  have h2 := hw (29/10) 0
  rw [h1] at h2
  have hhi : (29/10 : ℚ) ≤ hi := by
    calc (29/10 : ℚ) = min (max (29/10 + scaleAmountOf 0) lo) hi := h2
    _ ≤ hi := min_le_right _ _
  have h3 : handleZoomIn (5/2) = 2 := by
    norm_num [handleZoomIn, min_def]
  have h4 := hin (5/2)
  rw [h3] at h4
  have hA : (26/10 : ℚ) ≤ max (5/2 + 1/10) lo := by
    calc (26/10 : ℚ) = 5/2 + 1/10 := by norm_num
    _ ≤ max (5/2 + 1/10) lo := le_max_left _ _
  have hB : (26/10 : ℚ) ≤ min (max (5/2 + 1/10) lo) hi :=
    le_min hA (le_trans (by norm_num) hhi)
  rw [← h4] at hB
  norm_num at hB

/-- Claim C8 (amended): the modifier-wheel path clamps the zoom to [0.2, 3]
and the discrete zoom-out control enforces the same lower bound 0.2, but the
discrete zoom-in control clamps its result above at 2 rather than 3, so the
operations do not share one clamping range: the wheel can produce zoom 3
while zoom-in caps 2.5 down to 2. -/
theorem C8_zoom_bounds :
    (∀ z dy : ℚ, 1/5 ≤ wheelNewZoom z dy ∧ wheelNewZoom z dy ≤ 3) ∧
    (∀ z : ℚ, 1/5 ≤ handleZoomOut z) ∧
    (∀ z : ℚ, handleZoomIn z ≤ 2) ∧
    wheelNewZoom 2 (-1000) = 3 ∧
    handleZoomIn (5/2) = 2 := by
  refine ⟨fun z dy => ⟨le_min (le_max_right _ _) (by norm_num), min_le_right _ _⟩,
    fun z => le_max_right _ _, fun z => min_le_right _ _, ?_, ?_⟩
  · norm_num [wheelNewZoom, scaleAmountOf, min_def, max_def]
  · norm_num [handleZoomIn, min_def]

/-- Claim C9: every drop resets the transient drag state to its idle values,
and a drop with a parsed payload while the coordinator is over the trash zone
emits a delete of the dragged node's id exactly when the payload's source is
canvas; any other source over the trash produces no mutation. -/
theorem C9_trash_drop (s : DragState) (p : Option DragData) :
    (handleDrop s p).1 = idleDragState ∧
    (∀ d, p = some d → s.isOverTrash = true →
      (((handleDrop s p).2 = DropAction.deleteNode d.id) ↔ d.source = "canvas") ∧
      (¬ d.source = "canvas" → (handleDrop s p).2 = DropAction.noAction)) := by
  refine ⟨rfl, ?_⟩
  intro d hp ht
  subst hp
  constructor
  · constructor
    · intro ha
      by_contra hc
      simp [handleDrop, dropActionOf, ht, hc] at ha
    · intro hc
      simp [handleDrop, dropActionOf, ht, hc]
  · intro hc
    simp [handleDrop, dropActionOf, ht, hc]

/-- Witness for C9: over the trash, a canvas payload deletes the dragged id, a
sidebar payload produces no mutation, and the post-drop state is idle. -/
theorem C9_trash_drop_witness :
    (handleDrop ⟨true, none, none, true⟩
        (some { source := "canvas", id := some ("x"), type := NodeType.task })).2
      = DropAction.deleteNode (some ("x")) ∧
    (handleDrop ⟨true, none, none, true⟩
        (some { source := "sidebar", type := NodeType.task })).2
      = DropAction.noAction ∧
    (handleDrop ⟨true, some ("y"), some DropPos.before, true⟩ none).1
      = idleDragState :=
  ⟨((C9_trash_drop ⟨true, none, none, true⟩
      (some { source := "canvas", id := some ("x"), type := NodeType.task })).2
      _ rfl rfl).1.mpr rfl,
   ((C9_trash_drop ⟨true, none, none, true⟩
      (some { source := "sidebar", type := NodeType.task })).2
      _ rfl rfl).2 (by decide),
   (C9_trash_drop ⟨true, some ("y"), some DropPos.before, true⟩ none).1⟩

/-- Claim C10: every update emitted during a block resize writes
`customWidth`/`customHeight` equal to `max 100 (start + displacement / zoom)`
on each axis, so both written dimensions are at least 100 for every pointer
displacement, including arbitrarily large negative ones; all other fields of
the block are preserved. -/
theorem C10_resize_min (b : BaseAttrs) (es : List FlowNode) (cw ch : Option ℚ)
    (sx sy cx cy z : ℚ) :
    ∃ w hh : ℚ,
      resizeUpdatedNode b es cw ch sx sy cx cy z
          = FlowNode.block b es (some w) (some hh) ∧
      100 ≤ w ∧ 100 ≤ hh ∧
      w = max 100 (jsNumOr cw 128 + (cx - sx) / z) ∧
      hh = max 100 (jsNumOr ch 128 + (cy - sy) / z) :=
  ⟨_, _, rfl, le_max_left _ _, le_max_left _ _, rfl, rfl⟩
